/-
Verification of the VaultAI RAG core (app/services/rag_service.py,
app/services/ai_service.py, app/services/rate_limiter.py) against its
natural-language specification.

The Python code is shallowly embedded:
* chunks, messages and citations become Lean structures;
* float arithmetic becomes exact rational arithmetic (ℚ); the floating-point
  square root used by `np.linalg.norm` is abstracted as a function parameter
  `sqrt : ℚ → ℚ`, since none of the verified properties depend on its value;
* fallible operations (numpy shape errors, provider calls, JSON parsing)
  become `Except` / `Option` values;
* the external embedding and completion providers become function parameters /
  `Except`-valued inputs;
* Python's stable `list.sort` becomes `List.insertionSort`, which is stable
  and therefore produces the same list.
-/
import Mathlib

namespace VaultAI

/-! ### Data model (app/models/chat.py, app/models/document.py) -/

/-- `MessageRole` enum from app/models/chat.py: user / assistant / system. -/
inductive MessageRole where
  | user
  | assistant
  | system
deriving DecidableEq, Repr

/-- A chat message as far as the RAG core reads it: its role and content
(app/models/chat.py, `ChatMessage`). -/
structure ChatMsg where
  role : MessageRole
  content : String
deriving DecidableEq, Repr

/-- A document chunk as far as the RAG core reads it
(app/models/document.py, `DocumentChunk`).  `id` is the UUID rendered as a
string; `embedding` is `none` for a NULL column, `some v` for a stored vector
(`some []` models an empty stored list, which Python's truthiness test also
rejects).  `token_count = none` models a NULL token count. -/
structure Chunk where
  id : String
  chunk_index : Nat
  content : String
  page_number : Option Nat
  token_count : Option Nat
  embedding : Option (List ℚ)
deriving DecidableEq, Repr

/-- Citation dictionary built by `RAGService.build_context`
(rag_service.py lines 193-198). -/
structure Citation where
  chunk_id : String
  content_snippet : String
  page_number : Option Nat
  relevance_score : ℚ
deriving DecidableEq, Repr

/-- Citation dictionary built by `RAGService.answer_multi_document_question`
(rag_service.py lines 414-421); it adds `document_id` / `document_name`. -/
structure MultiCitation where
  chunk_id : String
  document_id : String
  document_name : String
  content_snippet : String
  page_number : Option Nat
  relevance_score : ℚ
deriving DecidableEq, Repr

/-- A LangChain history message produced by `build_chat_history`:
`HumanMessage` or `AIMessage`. -/
inductive HistMsg where
  | human (content : String)
  | ai (content : String)
deriving DecidableEq, Repr

/-- Result dictionary of `RAGService.answer_question` (lines 329-339).
The wall-clock field `response_time_ms` and the constant `model_used`
are omitted from the embedding. -/
structure AnswerResult where
  answer : String
  citations : List Citation
  suggestions : List String
  context_used : Nat
  prompt_tokens : Nat
  completion_tokens : Nat
  total_tokens : Nat
deriving DecidableEq, Repr

/-- Result dictionary of `RAGService.answer_multi_document_question`
(lines 447-452), minus the wall-clock field. -/
structure MultiAnswerResult where
  answer : String
  citations : List MultiCitation
  documents_used : List String
deriving DecidableEq, Repr

/-! ### AIService.count_tokens (ai_service.py lines 62-65) -/

/-- `AIService.count_tokens`: `len(text) // 4`. -/
def count_tokens (text : String) : Nat :=
  text.length / 4

/-! ### Cosine similarity (rag_service.py lines 73-77) -/

/-- Dot product of two equal-length vectors, `np.dot` on 1-D arrays. -/
def dotProduct (v1 v2 : List ℚ) : ℚ :=
  ((v1.zip v2).map (fun p => p.1 * p.2)).sum

/-- `RAGService.cosine_similarity`: `np.dot(a,b) / (norm(a) * norm(b))` where
`np.linalg.norm(a) = sqrt(np.dot(a,a))`.  The floating-point square root is
the abstract parameter `sqrt`.  `np.dot` raises `ValueError` when the two
1-D arrays have different lengths; that failure is modelled as `none`. -/
def cosine_similarity (sqrt : ℚ → ℚ) (vec1 vec2 : List ℚ) : Option ℚ :=
  if vec1.length = vec2.length then
    some (dotProduct vec1 vec2 / (sqrt (dotProduct vec1 vec1) * sqrt (dotProduct vec2 vec2)))
  else
    none

/-! ### Retrieval (rag_service.py lines 79-143) -/

/-- Python truthiness of `chunk.embedding`: `None` and `[]` are falsy. -/
def truthyEmbedding : Option (List ℚ) → Bool
  | none => false
  | some v => !v.isEmpty

/-- The scoring loop of `retrieve_relevant_chunks` (lines 107-112): skip
chunks with a falsy embedding, score the rest, keep scores `>= threshold`.
A shape mismatch inside `cosine_similarity` is the uncaught `ValueError`. -/
def scoreChunks (sqrt : ℚ → ℚ) (query_embedding : List ℚ) (threshold : ℚ) :
    List Chunk → Except String (List (Chunk × ℚ))
  | [] => .ok []
  | c :: rest =>
    if truthyEmbedding c.embedding then
      match cosine_similarity sqrt query_embedding (c.embedding.getD []) with
      | none => .error "ValueError: shapes not aligned"
      | some score =>
        match scoreChunks sqrt query_embedding threshold rest with
        | .error e => .error e
        | .ok tail => .ok (if threshold ≤ score then (c, score) :: tail else tail)
    else
      scoreChunks sqrt query_embedding threshold rest

/-- The `ORDER BY chunk_index` of the chunk query (lines 99-103). -/
def sortByIndex (chunks : List Chunk) : List Chunk :=
  chunks.insertionSort (fun a b => a.chunk_index ≤ b.chunk_index)

/-- `scored_chunks.sort(key=lambda x: x[1], reverse=True)` (line 115):
Python's sort is stable, and `insertionSort` with this relation is the
stable descending sort by score, hence produces the same list. -/
def sortByScoreDesc (scored : List (Chunk × ℚ)) : List (Chunk × ℚ) :=
  scored.insertionSort (fun a b => b.2 ≤ a.2)

/-- `RAGService.retrieve_relevant_chunks` (lines 79-116).  The function first
acquires the rate limiter and embeds the query with one provider call; the
resulting query vector is the parameter `query_embedding`.  `chunks` is the
document's chunk list as stored (the embedded function applies the query's
`ORDER BY chunk_index` itself). -/
def retrieve_relevant_chunks (sqrt : ℚ → ℚ) (query_embedding : List ℚ)
    (chunks : List Chunk) (num_chunks : Nat) (similarity_threshold : ℚ) :
    Except String (List (Chunk × ℚ)) :=
  match scoreChunks sqrt query_embedding similarity_threshold (sortByIndex chunks) with
  | .error e => .error e
  | .ok scored => .ok ((sortByScoreDesc scored).take num_chunks)

/-- The per-document loop of `retrieve_from_multiple_documents`
(lines 132-139).  Each iteration calls `retrieve_relevant_chunks`, which
performs exactly one rate-limiter acquisition plus one query-embedding
provider call; the second component counts those (acquire, embed) pairs. -/
def retrieveMultiAux (sqrt : ℚ → ℚ) (embed : String → List ℚ) (query : String)
    (chunksOf : String → List Chunk) (num_chunks_per_doc : Nat)
    (similarity_threshold : ℚ) :
    List String → Except String (List (Chunk × ℚ × String) × Nat)
  | [] => .ok ([], 0)
  | doc_id :: rest =>
    match retrieve_relevant_chunks sqrt (embed query) (chunksOf doc_id)
        num_chunks_per_doc similarity_threshold with
    | .error e => .error e
    | .ok chunks =>
      match retrieveMultiAux sqrt embed query chunksOf num_chunks_per_doc
          similarity_threshold rest with
      | .error e => .error e
      | .ok (tail, n) =>
        .ok (chunks.map (fun p => (p.1, p.2, doc_id)) ++ tail, n + 1)

/-- `RAGService.retrieve_from_multiple_documents` (lines 118-143): retrieve
per document, tag with the document id, merge, stable-sort descending by
score.  `embed` is the query-embedding provider; the `Nat` component counts
provider calls (one per document iteration, as in the source). -/
def retrieve_from_multiple_documents (sqrt : ℚ → ℚ) (embed : String → List ℚ)
    (query : String) (chunksOf : String → List Chunk) (document_ids : List String)
    (num_chunks_per_doc : Nat) (similarity_threshold : ℚ) :
    Except String (List (Chunk × ℚ × String) × Nat) :=
  match retrieveMultiAux sqrt embed query chunksOf num_chunks_per_doc
      similarity_threshold document_ids with
  | .error e => .error e
  | .ok (all_chunks, n) =>
    .ok (all_chunks.insertionSort (fun a b => b.2.1 ≤ a.2.1), n)

/-! ### Context building (rag_service.py lines 165-203) -/

/-- Effective token count of a chunk:
`chunk.token_count or self.ai_service.count_tokens(chunk.content)` —
both `None` and `0` fall back to the length estimate. -/
def chunkTokens (c : Chunk) : Nat :=
  if c.token_count.getD 0 = 0 then count_tokens c.content else c.token_count.getD 0

/-- The `" (Page {p})"` reference (line 189): Python truthiness, so `None`
and page `0` produce the empty string. -/
def pageRefStr (p : Option Nat) : String :=
  if p.getD 0 = 0 then "" else " (Page " ++ toString (p.getD 0) ++ ")"

/-- The citation snippet of `build_context` (line 195):
`content[:200] + "..." if len(content) > 200 else content`. -/
def contentSnippet (content : String) : String :=
  if 200 < content.length then content.take 200 ++ "..." else content

/-- One citation of `build_context` (lines 193-198). -/
def mkCitation (c : Chunk) (score : ℚ) : Citation :=
  { chunk_id := c.id
    content_snippet := contentSnippet c.content
    page_number := c.page_number
    relevance_score := score }

/-- The accumulation loop of `build_context` (lines 182-200): `cur` is
`current_tokens`, `n` is `len(citations)` so far; the budget test
`current_tokens + chunk_tokens > max_tokens` breaks out of the loop. -/
def buildContextAux (max_tokens : Nat) :
    List (Chunk × ℚ) → Nat → Nat → List String × List Citation
  | [], _, _ => ([], [])
  | (c, score) :: rest, cur, n =>
    let ct := chunkTokens c
    if max_tokens < cur + ct then ([], [])
    else
      let part := "[Source " ++ toString (n + 1) ++ pageRefStr c.page_number
        ++ "]:\n" ++ c.content
      let pr := buildContextAux max_tokens rest (cur + ct) (n + 1)
      (part :: pr.1, mkCitation c score :: pr.2)

/-- `RAGService.build_context` (lines 165-203). -/
def build_context (chunks : List (Chunk × ℚ)) (max_tokens : Nat) :
    String × List Citation :=
  let pr := buildContextAux max_tokens chunks 0 0
  (String.intercalate "\n\n" pr.1, pr.2)

/-! ### Chat history (rag_service.py lines 205-224) -/

/-- The role dispatch of the history loop (lines 217-222): `user` becomes a
`HumanMessage`, `assistant` an `AIMessage`, anything else is skipped. -/
def historyMsg? (m : ChatMsg) : Option HistMsg :=
  match m.role with
  | .user => some (.human m.content)
  | .assistant => some (.ai m.content)
  | .system => none

/-- `RAGService.build_chat_history` (lines 205-224):
`messages[-context_window * 2:] if len(messages) > context_window * 2 else
messages`, then the role dispatch.  For `context_window = 0` the Python
slice `messages[-0:]` is the whole list, which the first branch reproduces. -/
def build_chat_history (messages : List ChatMsg) (context_window : Nat) :
    List HistMsg :=
  let n := context_window * 2
  let recent :=
    if n < messages.length then
      if n = 0 then messages else messages.drop (messages.length - n)
    else messages
  recent.filterMap historyMsg?

/-! ### Follow-up suggestions (rag_service.py lines 341-379) -/

/-- `RAGService._generate_follow_up_questions` (lines 341-379).  `llm` is the
outcome of the rate-limited provider call inside the `try` block; `parse`
models `json.loads` followed by list slicing — `none` when parsing (or the
subsequent `[:3]`) raises, which the bare `except` turns into `[]`. -/
def generate_follow_up_questions (llm : Except String String)
    (parse : String → Option (List String)) : List String :=
  match llm with
  | .error _ => []
  | .ok content =>
    match parse content with
    | none => []
    | some questions => questions.take 3

/-! ### answer_question (rag_service.py lines 262-339) -/

/-- `RAGService.answer_question` (lines 262-339).  External effects are
parameters: `embed` the query-embedding provider, `llm` the outcome of the
main completion call, `suggestion_llm`/`parse` the inputs of
`_generate_follow_up_questions`, `messages` the session's message log and
`context_window` the session's window, `max_context_tokens` the configured
budget.  A provider failure in retrieval or generation propagates as
`.error`; the suggestion call's failure never does. -/
def answer_question (sqrt : ℚ → ℚ) (embed : String → List ℚ)
    (chunks : List Chunk) (messages : List ChatMsg) (context_window : Nat)
    (question : String) (num_context_chunks : Nat) (similarity_threshold : ℚ)
    (include_citations include_suggestions : Bool)
    (llm suggestion_llm : Except String String)
    (parse : String → Option (List String)) (max_context_tokens : Nat) :
    Except String AnswerResult :=
  match retrieve_relevant_chunks sqrt (embed question) chunks
      num_context_chunks similarity_threshold with
  | .error e => .error e
  | .ok relevant_chunks =>
    let context := (build_context relevant_chunks max_context_tokens).1
    let citations := (build_context relevant_chunks max_context_tokens).2
    let _chat_history := build_chat_history messages context_window
    match llm with
    | .error e => .error e
    | .ok answer =>
      let suggestions :=
        if include_suggestions && !(context == "") then
          generate_follow_up_questions suggestion_llm parse
        else []
      let prompt_tokens := count_tokens (context ++ question)
      let completion_tokens := count_tokens answer
      .ok
        { answer := answer
          citations := if include_citations then citations else []
          suggestions := suggestions
          context_used := relevant_chunks.length
          prompt_tokens := prompt_tokens
          completion_tokens := completion_tokens
          total_tokens := prompt_tokens + completion_tokens }

/-! ### answer_multi_document_question (rag_service.py lines 381-452) -/

/-- The `", Page {p}"` reference of the multi-document path (line 411),
again with Python truthiness. -/
def multiPageRefStr (p : Option Nat) : String :=
  if p.getD 0 = 0 then "" else ", Page " ++ toString (p.getD 0)

/-- One citation of the multi-document path (lines 414-421): note the
snippet is `chunk.content[:200] + "..."` with no length test. -/
def mkMultiCitation (filenameOf : String → String) (t : Chunk × ℚ × String) :
    MultiCitation :=
  { chunk_id := t.1.id
    document_id := t.2.2
    document_name := filenameOf t.2.2
    content_snippet := t.1.content.take 200 ++ "..."
    page_number := t.1.page_number
    relevance_score := t.2.1 }

/-- One context block of the multi-document path (line 412). -/
def multiContextPart (filenameOf : String → String) (t : Chunk × ℚ × String) :
    String :=
  "[From: " ++ filenameOf t.2.2 ++ multiPageRefStr t.1.page_number ++ "]:\n"
    ++ t.1.content

/-- `RAGService.answer_multi_document_question` (lines 381-452).
`filenameOf` models the per-chunk filename query; `llm` the outcome of the
completion call.  `all_chunks[:10]` caps the chunks; there is no token
budget on this path.  `documents_used` is `list(set(...))` — the Python set
order is unspecified, modelled as first-occurrence order. -/
def answer_multi_document_question (sqrt : ℚ → ℚ) (embed : String → List ℚ)
    (chunksOf : String → List Chunk) (filenameOf : String → String)
    (document_ids : List String) (question : String)
    (num_chunks_per_doc : Nat) (llm : Except String String) :
    Except String MultiAnswerResult :=
  match retrieve_from_multiple_documents sqrt embed question chunksOf
      document_ids num_chunks_per_doc (7/10 : ℚ) with
  | .error e => .error e
  | .ok (all_chunks, _) =>
    let used := all_chunks.take 10
    let context_parts := used.map (multiContextPart filenameOf)
    let citations := used.map (mkMultiCitation filenameOf)
    let _context := String.intercalate "\n\n" context_parts
    match llm with
    | .error e => .error e
    | .ok answer =>
      .ok
        { answer := answer
          citations := citations
          documents_used := (citations.map (fun c => c.document_id)).eraseDups }

/-! ### Rate limiter (app/services/rate_limiter.py) -/

/-- `RateLimiter._cleanup_old_requests` (lines 45-51): pop timestamps
strictly older than `now - 60` from the front of the deque. -/
def cleanupOld (now : ℚ) (q : List ℚ) : List ℚ :=
  q.dropWhile (fun t => t < now - 60)

/-- One `wait_sync` / `wait_async` call (lines 75-116) taken at clock time
`now` with deque `q`: cleanup, compute the wait (`0` when under the limit,
else `max 0 (oldest + 60 - now)`), sleep for it, cleanup again after a
positive sleep, then record the post-sleep time.  Returns the recorded
timestamp and the new deque.  (For `R = 0` the Python code would raise an
IndexError on an empty deque; `headD 0` is only reached with a nonempty
deque when `R ≥ 1`.) -/
def waitSyncStep (R : Nat) (now : ℚ) (q : List ℚ) : ℚ × List ℚ :=
  let q1 := cleanupOld now q
  let w := if q1.length < R then 0 else max 0 (q1.headD 0 + 60 - now)
  if 0 < w then
    (now + w, cleanupOld (now + w) q1 ++ [now + w])
  else
    (now, q1 ++ [now])

/-- Run a sequence of back-to-back acquires: the `i`-th call arrives
`gaps[i]` seconds after the previous call returned (the first, `gaps[0]`
seconds after time 0).  Returns the list of recorded timestamps in order. -/
def runAcquires (R : Nat) : List ℚ → List ℚ → ℚ → List ℚ
  | [], _, _ => []
  | g :: gs, q, lastFinish =>
    let step := waitSyncStep R (lastFinish + g) q
    step.1 :: runAcquires R gs step.2 step.1

/-- The recorded-timestamp trace of a sequence of acquires against a fresh
limiter with limit `R`. -/
def limiterTrace (R : Nat) (gaps : List ℚ) : List ℚ :=
  runAcquires R gaps [] 0

/-- The sliding-window bound: every 60-second window `(x, x + 60]` contains
at most `R` recorded timestamps (equivalently: at any instant, at most `R`
timestamps are newer than `now - 60`). -/
def windowOK (R : Nat) (tr : List ℚ) : Prop :=
  ∀ x : ℚ, (tr.filter (fun t => decide (x < t ∧ t ≤ x + 60))).length ≤ R

/-! ### Auxiliary notions used by the statements -/

/-- Descending-by-score order with ties broken by lower original chunk
index — the order in which a stable descending sort leaves chunks that were
scanned in `chunk_index` order. -/
def descLex (a b : Chunk × ℚ) : Prop :=
  b.2 < a.2 ∨ (a.2 = b.2 ∧ a.1.chunk_index < b.1.chunk_index)

instance (a b : Chunk × ℚ) : Decidable (descLex a b) := by
  unfold descLex; infer_instance

/-- Total token count of a scored-chunk list, with the source's fallback. -/
def tokenSum (l : List (Chunk × ℚ)) : Nat :=
  (l.map (fun p => chunkTokens p.1)).sum

instance : IsTotal Chunk (fun a b => a.chunk_index ≤ b.chunk_index) :=
  ⟨fun a b => Nat.le_total a.chunk_index b.chunk_index⟩

instance : IsTrans Chunk (fun a b => a.chunk_index ≤ b.chunk_index) :=
  ⟨fun _ _ _ h h' => Nat.le_trans h h'⟩

instance : IsTotal (Chunk × ℚ) (fun a b => b.2 ≤ a.2) :=
  ⟨fun a b => le_total b.2 a.2⟩

instance : IsTrans (Chunk × ℚ) (fun a b => b.2 ≤ a.2) :=
  ⟨fun _ _ _ h h' => le_trans h' h⟩

instance : IsTotal (Chunk × ℚ × String) (fun a b => b.2.1 ≤ a.2.1) :=
  ⟨fun a b => le_total b.2.1 a.2.1⟩

instance : IsTrans (Chunk × ℚ × String) (fun a b => b.2.1 ≤ a.2.1) :=
  ⟨fun _ _ _ h h' => le_trans h' h⟩

/-! ### Concrete sample data for witnesses and counterexamples -/

/-- A concrete stand-in for the floating-point square root. -/
def sqrtId : ℚ → ℚ := fun q => q

/-- A concrete one-dimensional embedding provider. -/
def embedUnit : String → List ℚ := fun _ => [1]

/-- A concrete two-dimensional embedding provider. -/
def embedPlane : String → List ℚ := fun _ => [1, 0]

def chunkA : Chunk := ⟨"c1", 0, "alpha", none, some 50, some [1, 0]⟩

def chunkB : Chunk := ⟨"c2", 1, "beta", none, some 60, some [1, 0]⟩

def chunkC : Chunk := ⟨"c3", 2, "gamma", none, some 40, some [0, 1]⟩

/-- A chunk whose content is at most 200 characters long. -/
def chunkShort : Chunk := ⟨"s1", 0, "abc", none, some 5, some [1]⟩

/-- A chunk whose token count exceeds the default 4000-token budget. -/
def chunkBig : Chunk := ⟨"b1", 0, "big", none, some 999999, some [1]⟩

/-- Ten alternating user/assistant turns, oldest first. -/
def altMessages : List ChatMsg :=
  [⟨.user, "u1"⟩, ⟨.assistant, "a1"⟩, ⟨.user, "u2"⟩, ⟨.assistant, "a2"⟩,
   ⟨.user, "u3"⟩, ⟨.assistant, "a3"⟩, ⟨.user, "u4"⟩, ⟨.assistant, "a4"⟩,
   ⟨.user, "u5"⟩, ⟨.assistant, "a5"⟩]

/-! ## Lemmas about the context builder -/

lemma tokenSum_cons (c : Chunk) (s : ℚ) (l : List (Chunk × ℚ)) :
    tokenSum ((c, s) :: l) = chunkTokens c + tokenSum l := by
  simp [tokenSum]

lemma buildContextAux_length (B : Nat) :
    ∀ (chunks : List (Chunk × ℚ)) (cur n : Nat),
      (buildContextAux B chunks cur n).1.length =
        (buildContextAux B chunks cur n).2.length := by
  intro chunks
  induction chunks with
  | nil => intro cur n; rfl
  | cons p rest ih =>
    intro cur n
    obtain ⟨c, s⟩ := p
    by_cases h : B < cur + chunkTokens c
    · simp [buildContextAux, h]
    · simp [buildContextAux, h, ih (cur + chunkTokens c) (n + 1)]

lemma buildContextAux_cits (B : Nat) :
    ∀ (chunks : List (Chunk × ℚ)) (cur n : Nat),
      ∃ m, m ≤ chunks.length ∧
        (buildContextAux B chunks cur n).2 =
          (chunks.take m).map (fun p => mkCitation p.1 p.2) ∧
        (0 < m → cur + tokenSum (chunks.take m) ≤ B) ∧
        (m < chunks.length → B < cur + tokenSum (chunks.take (m + 1))) := by
  intro chunks
  induction chunks with
  | nil =>
    intro cur n
    refine ⟨0, ?_, ?_, ?_, ?_⟩ <;> simp [buildContextAux]
  | cons p rest ih =>
    intro cur n
    obtain ⟨c, s⟩ := p
    by_cases h : B < cur + chunkTokens c
    · refine ⟨0, by simp, by simp [buildContextAux, h], by simp, ?_⟩
      intro _
      simpa [tokenSum_cons, tokenSum] using h
    · obtain ⟨m', hm'le, hcits, hsum, hstop⟩ := ih (cur + chunkTokens c) (n + 1)
      refine ⟨m' + 1, by simpa using Nat.succ_le_succ hm'le, ?_, ?_, ?_⟩
      · simp [buildContextAux, h, List.take_succ_cons, hcits]
      · intro _
        rw [List.take_succ_cons, tokenSum_cons]
        rcases Nat.eq_zero_or_pos m' with hm0 | hmpos
        · subst hm0
          simp only [List.take_zero, tokenSum, List.map_nil, List.sum_nil]
          omega
        · have := hsum hmpos
          omega
      · intro hlt
        have hl : m' < rest.length := by simpa using Nat.lt_of_succ_lt_succ hlt
        have := hstop hl
        rw [List.take_succ_cons, tokenSum_cons]
        omega

/-- **C6**: `build_context` includes exactly the ranked chunks before the
first one whose addition would make the cumulative token count exceed the
budget (greedy by rank, no partial inclusion, everything after the first
over-budget chunk dropped), produces one citation per included chunk, and
returns an empty context and empty citation list on empty input or when the
first chunk alone exceeds the budget. -/
theorem build_context_greedy (chunks : List (Chunk × ℚ)) (B : Nat) :
    ∃ m, m ≤ chunks.length ∧
      (build_context chunks B).2 = (chunks.take m).map (fun p => mkCitation p.1 p.2) ∧
      (build_context chunks B).2.length = m ∧
      tokenSum (chunks.take m) ≤ B ∧
      (m < chunks.length → B < tokenSum (chunks.take (m + 1))) ∧
      (chunks = [] → build_context chunks B = ("", [])) ∧
      (∀ c s rest, chunks = (c, s) :: rest → B < chunkTokens c →
        build_context chunks B = ("", [])) := by
  obtain ⟨m, hm, hcits, hsum, hstop⟩ := buildContextAux_cits B chunks 0 0
  have hbc : (build_context chunks B).2 =
      (chunks.take m).map (fun p => mkCitation p.1 p.2) := by
    simpa [build_context] using hcits
  refine ⟨m, hm, hbc, ?_, ?_, ?_, ?_, ?_⟩
  · rw [hbc]
    simp [List.length_take, Nat.min_eq_left hm]
  · rcases Nat.eq_zero_or_pos m with hm0 | hmpos
    · subst hm0; simp [tokenSum]
    · simpa using hsum hmpos
  · intro h
    simpa using hstop h
  · intro h; subst h; rfl
  · intro c s rest heq hbig
    subst heq
    have haux : buildContextAux B ((c, s) :: rest) 0 0 = ([], []) := by
      simp [buildContextAux, hbig]
    simp only [build_context, haux]
    rfl

/-- Witness for C6, the spec's P5 scenario: ranked token counts
`[50, 60, 40]` and budget 100 admit exactly the first chunk. -/
theorem build_context_greedy_witness :
    (∃ m, m ≤ ([(chunkA, (1:ℚ)), (chunkB, 9/10), (chunkC, 8/10)]).length ∧
      (build_context [(chunkA, 1), (chunkB, 9/10), (chunkC, 8/10)] 100).2 =
        (([(chunkA, (1:ℚ)), (chunkB, 9/10), (chunkC, 8/10)]).take m).map
          (fun p => mkCitation p.1 p.2) ∧
      (build_context [(chunkA, 1), (chunkB, 9/10), (chunkC, 8/10)] 100).2.length = m ∧
      tokenSum (([(chunkA, (1:ℚ)), (chunkB, 9/10), (chunkC, 8/10)]).take m) ≤ 100 ∧
      (m < ([(chunkA, (1:ℚ)), (chunkB, 9/10), (chunkC, 8/10)]).length →
        100 < tokenSum (([(chunkA, (1:ℚ)), (chunkB, 9/10), (chunkC, 8/10)]).take (m + 1))) ∧
      ([(chunkA, (1:ℚ)), (chunkB, 9/10), (chunkC, 8/10)] = ([] : List (Chunk × ℚ)) →
        build_context [(chunkA, 1), (chunkB, 9/10), (chunkC, 8/10)] 100 = ("", [])) ∧
      (∀ c s rest, [(chunkA, (1:ℚ)), (chunkB, 9/10), (chunkC, 8/10)] = (c, s) :: rest →
        100 < chunkTokens c →
        build_context [(chunkA, 1), (chunkB, 9/10), (chunkC, 8/10)] 100 = ("", []))) ∧
    (build_context [(chunkA, 1), (chunkB, 9/10), (chunkC, 8/10)] 100).2.length = 1 :=
  ⟨build_context_greedy [(chunkA, 1), (chunkB, 9/10), (chunkC, 8/10)] 100,
   by decide⟩

/-- The citation list of `build_context` is a mapped prefix of the ranked
input (shared helper). -/
lemma build_context_cits (chunks : List (Chunk × ℚ)) (B : Nat) :
    ∃ m, m ≤ chunks.length ∧
      (build_context chunks B).2 = (chunks.take m).map (fun p => mkCitation p.1 p.2) := by
  obtain ⟨m, hm, hcits, -, -⟩ := buildContextAux_cits B chunks 0 0
  exact ⟨m, hm, by simpa [build_context] using hcits⟩

lemma build_context_cits_length_le (chunks : List (Chunk × ℚ)) (B : Nat) :
    (build_context chunks B).2.length ≤ chunks.length := by
  obtain ⟨m, hm, hcits⟩ := build_context_cits chunks B
  rw [hcits]
  simp only [List.length_map, List.length_take]
  omega

/-! ## answer_question: context_used and suggestion isolation -/

/-- Concrete evaluation: both sample chunks score 1 against the plane query
and survive a threshold of 1/2 (shared helper). -/
lemma retrieveAB_eval :
    retrieve_relevant_chunks sqrtId (embedPlane "q") [chunkA, chunkB] 5 (1/2) =
      .ok [(chunkA, 1), (chunkB, 1)] := by
  norm_num [retrieve_relevant_chunks, sortByIndex, sortByScoreDesc, scoreChunks,
    cosine_similarity, dotProduct, truthyEmbedding, sqrtId, embedPlane,
    chunkA, chunkB, List.insertionSort, List.orderedInsert]

/-- **C1 (amended)**: `context_used` in the result of `answer_question`
equals the number of chunks returned by retrieval — before the
ContextBuilder budget cut — and the citation list can therefore be shorter
than `context_used`. -/
theorem answer_question_context_used (sqrt : ℚ → ℚ) (embed : String → List ℚ)
    (chunks : List Chunk) (messages : List ChatMsg) (cw : Nat) (question : String)
    (k : Nat) (t : ℚ) (ic isug : Bool) (llm sugg : Except String String)
    (parse : String → Option (List String)) (B : Nat)
    (rc : List (Chunk × ℚ)) (ans : String)
    (hret : retrieve_relevant_chunks sqrt (embed question) chunks k t = .ok rc)
    (hllm : llm = .ok ans) :
    ∃ res, answer_question sqrt embed chunks messages cw question k t
        ic isug llm sugg parse B = .ok res ∧
      res.context_used = rc.length ∧ res.citations.length ≤ rc.length := by
  subst hllm
  unfold answer_question
  rw [hret]
  refine ⟨_, rfl, rfl, ?_⟩
  show (if ic then (build_context rc B).2 else []).length ≤ rc.length
  cases ic
  · simp
  · simpa using build_context_cits_length_le rc B

/-- Witness for C1 (amended): two retrieved chunks, only one of which
survives the 100-token budget. -/
theorem answer_question_context_used_witness :
    ∃ res, answer_question sqrtId embedPlane [chunkA, chunkB] [] 5 "q" 5 (1/2)
        true false (.ok "ans") (.ok "x") (fun _ => none) 100 = .ok res ∧
      res.context_used = ([(chunkA, (1:ℚ)), (chunkB, 1)]).length ∧
      res.citations.length ≤ ([(chunkA, (1:ℚ)), (chunkB, 1)]).length :=
  answer_question_context_used sqrtId embedPlane [chunkA, chunkB] [] 5 "q" 5 (1/2)
    true false (.ok "ans") (.ok "x") (fun _ => none) 100
    [(chunkA, 1), (chunkB, 1)] "ans" retrieveAB_eval rfl

/-- Counterexample to C1 as stated: with retrieved token counts `[50, 60]`
and a 100-token budget, `answer_question` reports `context_used = 2` while
`build_context` produced only 1 citation. -/
theorem answer_question_context_used_counterexample :
    (answer_question sqrtId embedPlane [chunkA, chunkB] [] 5 "q" 5 (1/2)
        true false (.ok "ans") (.ok "x") (fun _ => none) 100).map
      (fun r => (r.context_used, r.citations.length)) = .ok (2, 1) ∧
    (2 : Nat) ≠ 1 := by
  refine ⟨?_, by decide⟩
  simp only [answer_question, retrieveAB_eval, Except.map, Except.ok.injEq,
    Prod.mk.injEq, if_true]
  exact ⟨by decide, by decide⟩

/-- **C9**: when the suggestion-generation provider call fails or its output
is unparseable, `answer_question` (with suggestions requested) still returns
a successful result whose `suggestions` field is the empty list — the
failure never propagates to the caller. -/
theorem suggestion_failure_isolated (sqrt : ℚ → ℚ) (embed : String → List ℚ)
    (chunks : List Chunk) (messages : List ChatMsg) (cw : Nat) (question : String)
    (k : Nat) (t : ℚ) (ic : Bool) (llm sugg : Except String String)
    (parse : String → Option (List String)) (B : Nat)
    (rc : List (Chunk × ℚ)) (ans : String)
    (hret : retrieve_relevant_chunks sqrt (embed question) chunks k t = .ok rc)
    (hllm : llm = .ok ans)
    (hfail : (∃ e, sugg = .error e) ∨ ∃ c, sugg = .ok c ∧ parse c = none) :
    ∃ res, answer_question sqrt embed chunks messages cw question k t
        ic true llm sugg parse B = .ok res ∧ res.suggestions = [] := by
  subst hllm
  have hgen : generate_follow_up_questions sugg parse = [] := by
    rcases hfail with ⟨e, rfl⟩ | ⟨c, rfl, hp⟩
    · rfl
    · simp [generate_follow_up_questions, hp]
  unfold answer_question
  rw [hret]
  refine ⟨_, rfl, ?_⟩
  show (if _ then generate_follow_up_questions sugg parse else []) = []
  rw [hgen]
  simp

/-- Witness for C9: a failing suggestion call still yields a successful
answer with no suggestions. -/
theorem suggestion_failure_isolated_witness :
    ∃ res, answer_question sqrtId embedPlane [chunkA, chunkB] [] 5 "q" 5 (1/2)
        true true (.ok "ans") (.error "boom") (fun _ => none) 100 = .ok res ∧
      res.suggestions = [] :=
  suggestion_failure_isolated sqrtId embedPlane [chunkA, chunkB] [] 5 "q" 5 (1/2)
    true (.ok "ans") (.error "boom") (fun _ => none) 100
    [(chunkA, 1), (chunkB, 1)] "ans" retrieveAB_eval rfl
    (Or.inl ⟨"boom", rfl⟩)

/-! ## Citation snippets -/

/-- **C3 (amended)**: in single-document citations (`build_context`) the
snippet is the first 200 characters plus an ellipsis for content longer than
200 characters, and the unchanged content otherwise; in multi-document
citations the ellipsis is appended unconditionally, so content of at most
200 characters also gets the marker. -/
theorem citation_snippets (chunks : List (Chunk × ℚ)) (B : Nat) (sqrt : ℚ → ℚ)
    (embed : String → List ℚ) (chunksOf : String → List Chunk)
    (filenameOf : String → String) (docIds : List String) (question : String)
    (kpd : Nat) (llm : Except String String) :
    (∃ m, m ≤ chunks.length ∧
      (build_context chunks B).2 = (chunks.take m).map (fun p => mkCitation p.1 p.2) ∧
      ∀ p ∈ chunks.take m, (mkCitation p.1 p.2).content_snippet =
        (if 200 < p.1.content.length then p.1.content.take 200 ++ "..."
         else p.1.content)) ∧
    (∀ res, answer_multi_document_question sqrt embed chunksOf filenameOf docIds
        question kpd llm = .ok res →
      ∃ merged n, retrieve_from_multiple_documents sqrt embed question chunksOf
          docIds kpd (7/10 : ℚ) = .ok (merged, n) ∧
        res.citations = (merged.take 10).map (mkMultiCitation filenameOf) ∧
        ∀ t ∈ merged.take 10, (mkMultiCitation filenameOf t).content_snippet =
          t.1.content.take 200 ++ "...") := by
  constructor
  · obtain ⟨m, hm, hcits⟩ := build_context_cits chunks B
    exact ⟨m, hm, hcits, fun p _ => rfl⟩
  · intro res hres
    unfold answer_multi_document_question at hres
    cases hret : retrieve_from_multiple_documents sqrt embed question chunksOf
        docIds kpd (7/10 : ℚ) with
    | error e => rw [hret] at hres; simp at hres
    | ok pr =>
      obtain ⟨merged, n⟩ := pr
      rw [hret] at hres
      cases llm with
      | error e => simp at hres
      | ok a =>
        obtain rfl := Except.ok.inj hres
        exact ⟨merged, n, rfl, rfl, fun t _ => rfl⟩

/-- Witness for C3 (amended), at a short-content chunk on both paths. -/
theorem citation_snippets_witness :
    (∃ m, m ≤ ([(chunkShort, (1:ℚ))]).length ∧
      (build_context [(chunkShort, (1:ℚ))] 100).2 =
        (([(chunkShort, (1:ℚ))]).take m).map (fun p => mkCitation p.1 p.2) ∧
      ∀ p ∈ ([(chunkShort, (1:ℚ))]).take m, (mkCitation p.1 p.2).content_snippet =
        (if 200 < p.1.content.length then p.1.content.take 200 ++ "..."
         else p.1.content)) ∧
    (∀ res, answer_multi_document_question sqrtId embedUnit (fun _ => [chunkShort])
        (fun _ => "doc.pdf") ["d1"] "q" 3 (.ok "ans") = .ok res →
      ∃ merged n, retrieve_from_multiple_documents sqrtId embedUnit "q"
          (fun _ => [chunkShort]) ["d1"] 3 (7/10 : ℚ) = .ok (merged, n) ∧
        res.citations = (merged.take 10).map (mkMultiCitation (fun _ => "doc.pdf")) ∧
        ∀ t ∈ merged.take 10,
          (mkMultiCitation (fun _ => "doc.pdf") t).content_snippet =
            t.1.content.take 200 ++ "...") :=
  citation_snippets [(chunkShort, 1)] 100 sqrtId embedUnit (fun _ => [chunkShort])
    (fun _ => "doc.pdf") ["d1"] "q" 3 (.ok "ans")

set_option maxRecDepth 8000 in
/-- Counterexample to C3 as stated: the multi-document path appends the
ellipsis even to content of at most 200 characters (`"abc"` becomes
`"abc..."`, not `"abc"`). -/
theorem citation_snippets_counterexample :
    (answer_multi_document_question sqrtId embedUnit (fun _ => [chunkShort])
        (fun _ => "doc.pdf") ["d1"] "q" 3 (.ok "ans")).map
      (fun r => r.citations.map (fun c => c.content_snippet)) = .ok ["abc..."] ∧
    chunkShort.content.length ≤ 200 ∧ "abc..." ≠ "abc" := by
  have hret : retrieve_from_multiple_documents sqrtId embedUnit "q"
      (fun _ => [chunkShort]) ["d1"] 3 (7/10 : ℚ) =
      .ok ([(chunkShort, 1, "d1")], 1) := by
    norm_num [retrieve_from_multiple_documents, retrieveMultiAux,
      retrieve_relevant_chunks, sortByIndex, sortByScoreDesc, scoreChunks,
      cosine_similarity, dotProduct, truthyEmbedding, sqrtId, embedUnit,
      chunkShort, List.insertionSort, List.orderedInsert]
  refine ⟨?_, by decide, by decide⟩
  simp only [answer_multi_document_question, hret, Except.map, Except.ok.injEq]
  decide

/-! ## Retrieval: scoring and ranking lemmas -/

lemma scoreChunks_sublist {sqrt : ℚ → ℚ} {qe : List ℚ} {th : ℚ} :
    ∀ {chunks : List Chunk} {sc : List (Chunk × ℚ)},
      scoreChunks sqrt qe th chunks = .ok sc → (sc.map Prod.fst).Sublist chunks := by
  intro chunks
  induction chunks with
  | nil =>
    intro sc h
    simp only [scoreChunks, Except.ok.injEq] at h
    subst h
    simp
  | cons c rest ih =>
    intro sc h
    by_cases hemb : truthyEmbedding c.embedding = true
    · rw [scoreChunks, if_pos hemb] at h
      cases hcos : cosine_similarity sqrt qe (c.embedding.getD []) with
      | none => rw [hcos] at h; simp at h
      | some s =>
        rw [hcos] at h
        cases hrec : scoreChunks sqrt qe th rest with
        | error e => rw [hrec] at h; simp at h
        | ok tail =>
          rw [hrec] at h
          dsimp only at h
          by_cases hts : th ≤ s
          · rw [if_pos hts] at h
            obtain rfl := Except.ok.inj h
            simpa using (ih hrec).cons₂ c
          · rw [if_neg hts] at h
            obtain rfl := Except.ok.inj h
            exact (ih hrec).cons c
    · rw [scoreChunks, if_neg hemb] at h
      exact (ih h).cons c

lemma scoreChunks_mem {sqrt : ℚ → ℚ} {qe : List ℚ} {th : ℚ} :
    ∀ {chunks : List Chunk} {sc : List (Chunk × ℚ)},
      scoreChunks sqrt qe th chunks = .ok sc →
      ∀ p ∈ sc, truthyEmbedding p.1.embedding = true ∧
        cosine_similarity sqrt qe (p.1.embedding.getD []) = some p.2 ∧ th ≤ p.2 := by
  intro chunks
  induction chunks with
  | nil =>
    intro sc h
    simp only [scoreChunks, Except.ok.injEq] at h
    subst h
    simp
  | cons c rest ih =>
    intro sc h
    by_cases hemb : truthyEmbedding c.embedding = true
    · rw [scoreChunks, if_pos hemb] at h
      cases hcos : cosine_similarity sqrt qe (c.embedding.getD []) with
      | none => rw [hcos] at h; simp at h
      | some s =>
        rw [hcos] at h
        cases hrec : scoreChunks sqrt qe th rest with
        | error e => rw [hrec] at h; simp at h
        | ok tail =>
          rw [hrec] at h
          dsimp only at h
          by_cases hts : th ≤ s
          · rw [if_pos hts] at h
            obtain rfl := Except.ok.inj h
            intro p hp
            rcases List.mem_cons.mp hp with rfl | hp'
            · exact ⟨hemb, hcos, hts⟩
            · exact ih hrec p hp'
          · rw [if_neg hts] at h
            obtain rfl := Except.ok.inj h
            exact ih hrec
    · rw [scoreChunks, if_neg hemb] at h
      exact ih h

lemma scoreChunks_ok {sqrt : ℚ → ℚ} {qe : List ℚ} {th : ℚ} :
    ∀ {chunks : List Chunk},
      (∀ c ∈ chunks, ∀ v, c.embedding = some v → v.isEmpty = false →
        v.length = qe.length) →
      ∃ sc, scoreChunks sqrt qe th chunks = .ok sc := by
  intro chunks
  induction chunks with
  | nil => intro _; exact ⟨[], rfl⟩
  | cons c rest ih =>
    intro hdim
    obtain ⟨tail, htail⟩ := ih (fun d hd => hdim d (List.mem_cons_of_mem c hd))
    by_cases hemb : truthyEmbedding c.embedding = true
    · obtain ⟨v, hv⟩ : ∃ v, c.embedding = some v := by
        cases he : c.embedding with
        | none => rw [he] at hemb; simp [truthyEmbedding] at hemb
        | some v => exact ⟨v, rfl⟩
      have hvne : v.isEmpty = false := by
        rw [hv] at hemb
        simpa [truthyEmbedding] using hemb
      have hlen : qe.length = (c.embedding.getD []).length := by
        rw [hv, Option.getD_some, hdim c (List.mem_cons_self c rest) v hv hvne]
      have hcos : cosine_similarity sqrt qe (c.embedding.getD []) =
          some (dotProduct qe (c.embedding.getD []) /
            (sqrt (dotProduct qe qe) *
              sqrt (dotProduct (c.embedding.getD []) (c.embedding.getD [])))) := by
        rw [cosine_similarity, if_pos hlen]
      rw [scoreChunks, if_pos hemb, hcos, htail]
      dsimp only
      exact ⟨_, rfl⟩
    · exact ⟨tail, by rw [scoreChunks, if_neg hemb]; exact htail⟩

lemma orderedInsert_descLex {x : Chunk × ℚ} :
    ∀ {l : List (Chunk × ℚ)}, l.Pairwise descLex →
      (∀ y ∈ l, x.1.chunk_index < y.1.chunk_index) →
      (List.orderedInsert (fun a b => b.2 ≤ a.2) x l).Pairwise descLex := by
  intro l
  induction l with
  | nil => intro _ _; simp [List.orderedInsert]
  | cons b bs ih =>
    intro hl hx
    obtain ⟨hb, hbs⟩ := List.pairwise_cons.mp hl
    rw [List.orderedInsert]
    by_cases h : b.2 ≤ x.2
    · rw [if_pos h]
      refine List.Pairwise.cons ?_ hl
      intro y hy
      have hyle : y.2 ≤ x.2 := by
        rcases List.mem_cons.mp hy with rfl | hybs
        · exact h
        · rcases hb y hybs with h1 | ⟨h1, -⟩
          · exact le_trans (le_of_lt h1) h
          · exact le_trans (le_of_eq h1.symm) h
      rcases lt_or_eq_of_le hyle with hlt | heq
      · exact Or.inl hlt
      · exact Or.inr ⟨heq.symm, hx y hy⟩
    · rw [if_neg h]
      refine List.Pairwise.cons ?_
        (ih hbs (fun y hy => hx y (List.mem_cons_of_mem b hy)))
      intro z hz
      rcases (List.mem_orderedInsert _).mp hz with rfl | hzbs
      · exact Or.inl (lt_of_not_le h)
      · exact hb z hzbs

lemma sortByScoreDesc_descLex {l : List (Chunk × ℚ)}
    (h : l.Pairwise (fun a b => a.1.chunk_index < b.1.chunk_index)) :
    (sortByScoreDesc l).Pairwise descLex := by
  induction l with
  | nil => simp [sortByScoreDesc, List.insertionSort]
  | cons x xs ih =>
    obtain ⟨hx, hxs⟩ := List.pairwise_cons.mp h
    show (List.insertionSort _ (x :: xs)).Pairwise descLex
    rw [List.insertionSort]
    exact orderedInsert_descLex (ih hxs)
      (fun y hy => hx y ((List.perm_insertionSort _ xs).subset hy))

lemma sortByIndex_pairwise_lt {chunks : List Chunk}
    (h : chunks.Pairwise (fun a b => a.chunk_index ≠ b.chunk_index)) :
    (sortByIndex chunks).Pairwise (fun a b => a.chunk_index < b.chunk_index) := by
  have hle : (sortByIndex chunks).Pairwise (fun a b => a.chunk_index ≤ b.chunk_index) :=
    List.sorted_insertionSort (fun a b : Chunk => a.chunk_index ≤ b.chunk_index) chunks
  have hne : (sortByIndex chunks).Pairwise (fun a b => a.chunk_index ≠ b.chunk_index) :=
    ((List.perm_insertionSort _ chunks).pairwise_iff (fun hab => hab.symm)).mpr h
  exact (hle.and hne).imp (fun hab => lt_of_le_of_ne hab.1 hab.2)

/-- **C5**: successful retrieval returns at most `k` chunks, each with a
truthy embedding and a cosine similarity of at least the threshold, sorted
in descending order of similarity with ties broken by lower original chunk
index first. -/
theorem retrieve_ranking (sqrt : ℚ → ℚ) (qe : List ℚ) (chunks : List Chunk)
    (k : Nat) (t : ℚ) (out : List (Chunk × ℚ))
    (hidx : chunks.Pairwise (fun a b => a.chunk_index ≠ b.chunk_index))
    (hok : retrieve_relevant_chunks sqrt qe chunks k t = .ok out) :
    out.length ≤ k ∧
    (∀ p ∈ out, truthyEmbedding p.1.embedding = true ∧
      cosine_similarity sqrt qe (p.1.embedding.getD []) = some p.2 ∧ t ≤ p.2) ∧
    out.Pairwise descLex := by
  unfold retrieve_relevant_chunks at hok
  cases hsc : scoreChunks sqrt qe t (sortByIndex chunks) with
  | error e => rw [hsc] at hok; simp at hok
  | ok scored =>
    rw [hsc] at hok
    obtain rfl := Except.ok.inj hok
    refine ⟨?_, ?_, ?_⟩
    · rw [List.length_take]
      exact Nat.min_le_left _ _
    · intro p hp
      exact scoreChunks_mem hsc p
        ((List.perm_insertionSort _ scored).subset (List.mem_of_mem_take hp))
    · have hord := sortByIndex_pairwise_lt hidx
      have hmap : (scored.map Prod.fst).Pairwise
          (fun a b => a.chunk_index < b.chunk_index) :=
        List.Pairwise.sublist (scoreChunks_sublist hsc) hord
      rw [List.pairwise_map] at hmap
      have hsorted := sortByScoreDesc_descLex hmap
      exact List.Pairwise.sublist (List.take_sublist k _) hsorted

/-- Witness for C5: retrieval over two indexed chunks with threshold 1/2. -/
theorem retrieve_ranking_witness :
    ([(chunkA, (1:ℚ)), (chunkB, 1)]).length ≤ 5 ∧
    (∀ p ∈ [(chunkA, (1:ℚ)), (chunkB, 1)], truthyEmbedding p.1.embedding = true ∧
      cosine_similarity sqrtId (embedPlane "q") (p.1.embedding.getD []) = some p.2 ∧
      (1/2 : ℚ) ≤ p.2) ∧
    ([(chunkA, (1:ℚ)), (chunkB, 1)]).Pairwise descLex :=
  retrieve_ranking sqrtId (embedPlane "q") [chunkA, chunkB] 5 (1/2)
    [(chunkA, 1), (chunkB, 1)] (by decide) retrieveAB_eval

/-- **C10 (amended)**: retrieval never errors because of *missing or empty*
embeddings — such chunks are excluded from scoring, and zero chunks or
all-below-threshold documents yield an empty result — provided every stored
non-empty embedding has the query's dimension; a non-empty embedding of a
different dimension makes the ranking raise instead of being excluded. -/
theorem retrieval_embedding_safety (sqrt : ℚ → ℚ) (qe : List ℚ)
    (chunks : List Chunk) (k : Nat) (t : ℚ)
    (hdim : ∀ c ∈ chunks, ∀ v, c.embedding = some v → v.isEmpty = false →
      v.length = qe.length) :
    ∃ out, retrieve_relevant_chunks sqrt qe chunks k t = .ok out ∧
      (∀ c ∈ chunks, truthyEmbedding c.embedding = false →
        ∀ s : ℚ, (c, s) ∉ out) ∧
      (chunks = [] → out = []) ∧
      ((∀ c ∈ chunks, ∀ v, c.embedding = some v →
        ∀ s, cosine_similarity sqrt qe v = some s → s < t) → out = []) := by
  have hdim' : ∀ c ∈ sortByIndex chunks, ∀ v, c.embedding = some v →
      v.isEmpty = false → v.length = qe.length :=
    fun c hc => hdim c ((List.perm_insertionSort _ chunks).subset hc)
  obtain ⟨scored, hsc⟩ := scoreChunks_ok hdim'
  refine ⟨(sortByScoreDesc scored).take k, ?_, ?_, ?_, ?_⟩
  · unfold retrieve_relevant_chunks
    rw [hsc]
  · intro c _ hfalse s hmem
    have := (scoreChunks_mem hsc (c, s)
      ((List.perm_insertionSort _ scored).subset (List.mem_of_mem_take hmem))).1
    rw [hfalse] at this
    exact absurd this (by simp)
  · intro h
    subst h
    have hnil : sortByIndex ([] : List Chunk) = [] := rfl
    rw [hnil] at hsc
    simp only [scoreChunks, Except.ok.injEq] at hsc
    subst hsc
    simp [sortByScoreDesc, List.insertionSort]
  · intro hbelow
    cases hscored : scored with
    | nil =>
      subst hscored
      simp [sortByScoreDesc, List.insertionSort]
    | cons p tl =>
      exfalso
      subst hscored
      have hp := scoreChunks_mem hsc p (List.mem_cons_self p tl)
      have hmem : p ∈ (p :: tl) := List.mem_cons_self p tl
      have hp1 : p.1 ∈ sortByIndex chunks :=
        (scoreChunks_sublist hsc).subset (List.mem_map_of_mem Prod.fst hmem)
      have hp1' : p.1 ∈ chunks := (List.perm_insertionSort _ chunks).subset hp1
      obtain ⟨v, hv⟩ : ∃ v, p.1.embedding = some v := by
        cases he : p.1.embedding with
        | none =>
          have := hp.1
          rw [he] at this
          simp [truthyEmbedding] at this
        | some v => exact ⟨v, rfl⟩
      have hcosv : cosine_similarity sqrt qe v = some p.2 := by
        have := hp.2.1
        rwa [hv, Option.getD_some] at this
      exact absurd hp.2.2 (not_le.mpr (hbelow p.1 hp1' v hv p.2 hcosv))

/-- Witness for C10 (amended): two well-dimensioned chunks. -/
theorem retrieval_embedding_safety_witness :
    ∃ out, retrieve_relevant_chunks sqrtId (embedPlane "q") [chunkA, chunkB] 5
        (1/2) = .ok out ∧
      (∀ c ∈ [chunkA, chunkB], truthyEmbedding c.embedding = false →
        ∀ s : ℚ, (c, s) ∉ out) ∧
      ([chunkA, chunkB] = ([] : List Chunk) → out = []) ∧
      ((∀ c ∈ [chunkA, chunkB], ∀ v, c.embedding = some v →
        ∀ s, cosine_similarity sqrtId (embedPlane "q") v = some s → s < 1/2) →
        out = []) :=
  retrieval_embedding_safety sqrtId (embedPlane "q") [chunkA, chunkB] 5 (1/2)
    (by
      intro c hc v hv hne
      rcases List.mem_cons.mp hc with rfl | hc
      · rw [show chunkA.embedding = some [1, 0] from rfl] at hv
        obtain rfl := Option.some.inj hv
        rfl
      · have : c = chunkB := by simpa using hc
        subst this
        rw [show chunkB.embedding = some [1, 0] from rfl] at hv
        obtain rfl := Option.some.inj hv
        rfl)

/-- Counterexample to C10 as stated: a chunk whose non-empty embedding has
the wrong dimension is not excluded — the ranking raises numpy's
`ValueError` (modelled as an `error` result). -/
theorem retrieval_dim_mismatch_counterexample :
    retrieve_relevant_chunks sqrtId [1, 2] [chunkShort] 5 (7/10) =
      .error "ValueError: shapes not aligned" := rfl

/-! ## Multi-document retrieval -/

lemma retrieveMultiAux_count {sqrt : ℚ → ℚ} {embed : String → List ℚ}
    {query : String} {chunksOf : String → List Chunk} {kpd : Nat} {th : ℚ} :
    ∀ {docIds : List String} {res : List (Chunk × ℚ × String)} {n : Nat},
      retrieveMultiAux sqrt embed query chunksOf kpd th docIds = .ok (res, n) →
      n = docIds.length := by
  intro docIds
  induction docIds with
  | nil =>
    intro res n h
    simp only [retrieveMultiAux, Except.ok.injEq, Prod.mk.injEq] at h
    exact h.2.symm
  | cons d ds ih =>
    intro res n h
    rw [retrieveMultiAux] at h
    cases hr : retrieve_relevant_chunks sqrt (embed query) (chunksOf d) kpd th with
    | error e => rw [hr] at h; simp at h
    | ok cs =>
      rw [hr] at h
      cases haux : retrieveMultiAux sqrt embed query chunksOf kpd th ds with
      | error e => rw [haux] at h; simp at h
      | ok pr =>
        obtain ⟨all, m⟩ := pr
        rw [haux] at h
        dsimp only at h
        have hn : m + 1 = n := congrArg Prod.snd (Except.ok.inj h)
        have h2 : m = ds.length := ih haux
        simp [← hn, h2]

/-- **C2 (amended)**: `retrieve_from_multiple_documents` performs one
rate-limiter acquisition and one query-embedding provider call *per
document* — `len(document_ids)` embedding calls in total, not a single call
reused across documents. -/
theorem multi_document_embed_calls (sqrt : ℚ → ℚ) (embed : String → List ℚ)
    (query : String) (chunksOf : String → List Chunk) (docIds : List String)
    (kpd : Nat) (th : ℚ) (res : List (Chunk × ℚ × String)) (n : Nat)
    (h : retrieve_from_multiple_documents sqrt embed query chunksOf docIds kpd th
      = .ok (res, n)) :
    n = docIds.length := by
  unfold retrieve_from_multiple_documents at h
  cases haux : retrieveMultiAux sqrt embed query chunksOf kpd th docIds with
  | error e => rw [haux] at h; simp at h
  | ok pr =>
    obtain ⟨all, m⟩ := pr
    rw [haux] at h
    dsimp only at h
    have hn : m = n := congrArg Prod.snd (Except.ok.inj h)
    rw [← hn]
    exact retrieveMultiAux_count haux

/-- Shared concrete evaluation of the two-document retrieval. -/
lemma retrieveTwoDocs_eval :
    retrieve_from_multiple_documents sqrtId embedUnit "q" (fun _ => [chunkShort])
      ["d1", "d2"] 3 (7/10) =
      .ok ([(chunkShort, 1, "d1"), (chunkShort, 1, "d2")], 2) := by
  have h1 : retrieve_relevant_chunks sqrtId (embedUnit "q") [chunkShort] 3 (7/10) =
      .ok [(chunkShort, 1)] := by
    norm_num [retrieve_relevant_chunks, sortByIndex, sortByScoreDesc, scoreChunks,
      cosine_similarity, dotProduct, truthyEmbedding, sqrtId, embedUnit,
      chunkShort, List.insertionSort, List.orderedInsert]
  norm_num [retrieve_from_multiple_documents, retrieveMultiAux, h1,
    List.insertionSort, List.orderedInsert]

/-- Witness for C2 (amended): two documents cause exactly two embedding
calls. -/
theorem multi_document_embed_calls_witness :
    (2 : Nat) = (["d1", "d2"]).length :=
  multi_document_embed_calls sqrtId embedUnit "q" (fun _ => [chunkShort])
    ["d1", "d2"] 3 (7/10) [(chunkShort, 1, "d1"), (chunkShort, 1, "d2")] 2
    retrieveTwoDocs_eval

/-- Counterexample to C2 as stated: with two documents and one query, the
embedding provider is called twice, not once. -/
theorem multi_document_embed_calls_counterexample :
    (retrieve_from_multiple_documents sqrtId embedUnit "q" (fun _ => [chunkShort])
      ["d1", "d2"] 3 (7/10)).map (fun p => p.2) = .ok 2 ∧ (2 : Nat) ≠ 1 := by
  refine ⟨?_, by decide⟩
  rw [retrieveTwoDocs_eval]
  rfl

/-- **C7 (amended)**: the multi-document answer builds its context and
citations from at most 10 chunks, the top of the merged ranking sorted by
descending similarity across all documents — but, unlike the
single-document path, without applying the ContextBuilder token budget. -/
theorem multi_answer_top10 (sqrt : ℚ → ℚ) (embed : String → List ℚ)
    (chunksOf : String → List Chunk) (filenameOf : String → String)
    (docIds : List String) (question : String) (kpd : Nat)
    (llm : Except String String) (merged : List (Chunk × ℚ × String)) (n : Nat)
    (res : MultiAnswerResult)
    (hret : retrieve_from_multiple_documents sqrt embed question chunksOf docIds
      kpd (7/10 : ℚ) = .ok (merged, n))
    (hans : answer_multi_document_question sqrt embed chunksOf filenameOf docIds
      question kpd llm = .ok res) :
    res.citations = (merged.take 10).map (mkMultiCitation filenameOf) ∧
    res.citations.length ≤ 10 ∧
    merged.Pairwise (fun a b => b.2.1 ≤ a.2.1) := by
  unfold answer_multi_document_question at hans
  rw [hret] at hans
  cases llm with
  | error e => simp at hans
  | ok a =>
    obtain rfl := Except.ok.inj hans
    refine ⟨rfl, ?_, ?_⟩
    · simp only [List.length_map, List.length_take]
      exact Nat.min_le_left _ _
    · unfold retrieve_from_multiple_documents at hret
      cases haux : retrieveMultiAux sqrt embed question chunksOf kpd (7/10) docIds with
      | error e => rw [haux] at hret; simp at hret
      | ok pr =>
        obtain ⟨all, m⟩ := pr
        rw [haux] at hret
        dsimp only at hret
        have hm : List.insertionSort (fun a b => b.2.1 ≤ a.2.1) all = merged :=
          congrArg Prod.fst (Except.ok.inj hret)
        rw [← hm]
        exact List.sorted_insertionSort (fun a b => b.2.1 ≤ a.2.1) all

/-- Shared concrete evaluation of the single-document retrieval merge. -/
lemma retrieveOneDoc_eval :
    retrieve_from_multiple_documents sqrtId embedUnit "q" (fun _ => [chunkShort])
      ["d1"] 3 (7/10) = .ok ([(chunkShort, 1, "d1")], 1) := by
  have h1 : retrieve_relevant_chunks sqrtId (embedUnit "q") [chunkShort] 3 (7/10) =
      .ok [(chunkShort, 1)] := by
    norm_num [retrieve_relevant_chunks, sortByIndex, sortByScoreDesc, scoreChunks,
      cosine_similarity, dotProduct, truthyEmbedding, sqrtId, embedUnit,
      chunkShort, List.insertionSort, List.orderedInsert]
  norm_num [retrieve_from_multiple_documents, retrieveMultiAux, h1,
    List.insertionSort, List.orderedInsert]

set_option maxRecDepth 8000 in
/-- Shared concrete evaluation of the single-document multi answer. -/
lemma multiOneDoc_eval :
    answer_multi_document_question sqrtId embedUnit (fun _ => [chunkShort])
      (fun _ => "doc.pdf") ["d1"] "q" 3 (.ok "ans") =
      .ok { answer := "ans"
            citations := [mkMultiCitation (fun _ => "doc.pdf") (chunkShort, 1, "d1")]
            documents_used := ["d1"] } := by
  simp only [answer_multi_document_question, retrieveOneDoc_eval]
  rfl

/-- Witness for C7 (amended), on a concrete single-document call. -/
theorem multi_answer_top10_witness :
    ({ answer := "ans"
       citations := [mkMultiCitation (fun _ => "doc.pdf") (chunkShort, 1, "d1")]
       documents_used := ["d1"] } : MultiAnswerResult).citations =
      (([(chunkShort, (1:ℚ), "d1")]).take 10).map
        (mkMultiCitation (fun _ => "doc.pdf")) ∧
    ({ answer := "ans"
       citations := [mkMultiCitation (fun _ => "doc.pdf") (chunkShort, 1, "d1")]
       documents_used := ["d1"] } : MultiAnswerResult).citations.length ≤ 10 ∧
    ([(chunkShort, (1:ℚ), "d1")]).Pairwise (fun a b => b.2.1 ≤ a.2.1) :=
  multi_answer_top10 sqrtId embedUnit (fun _ => [chunkShort])
    (fun _ => "doc.pdf") ["d1"] "q" 3 (.ok "ans")
    [(chunkShort, 1, "d1")] 1 _ retrieveOneDoc_eval multiOneDoc_eval

set_option maxRecDepth 8000 in
/-- Counterexample to C7 as stated: a chunk whose token count exceeds the
default 4000-token budget is still included by the multi-document path,
while the single-document ContextBuilder would have produced no citation
for it — the multi-document path applies no token budget. -/
theorem multi_answer_budget_counterexample :
    (answer_multi_document_question sqrtId embedUnit (fun _ => [chunkBig])
        (fun _ => "doc.pdf") ["d1"] "q" 3 (.ok "ans")).map
      (fun r => r.citations.length) = .ok 1 ∧
    4000 < chunkTokens chunkBig ∧
    (build_context [(chunkBig, 1)] 4000).2 = [] := by
  have hret : retrieve_from_multiple_documents sqrtId embedUnit "q"
      (fun _ => [chunkBig]) ["d1"] 3 (7/10 : ℚ) = .ok ([(chunkBig, 1, "d1")], 1) := by
    norm_num [retrieve_from_multiple_documents, retrieveMultiAux,
      retrieve_relevant_chunks, sortByIndex, sortByScoreDesc, scoreChunks,
      cosine_similarity, dotProduct, truthyEmbedding, sqrtId, embedUnit,
      chunkBig, List.insertionSort, List.orderedInsert]
  refine ⟨?_, by decide, by decide⟩
  simp only [answer_multi_document_question, hret, Except.map, Except.ok.injEq]
  decide

/-! ## Chat history -/

lemma length_filterMap_of_no_system :
    ∀ {l : List ChatMsg}, (∀ m ∈ l, m.role ≠ .system) →
      (l.filterMap historyMsg?).length = l.length := by
  intro l
  induction l with
  | nil => intro _; rfl
  | cons m rest ih =>
    intro h
    have hrest := ih (fun x hx => h x (List.mem_cons_of_mem m hx))
    cases hm : m.role with
    | user => simp [historyMsg?, hm, hrest]
    | assistant => simp [historyMsg?, hm, hrest]
    | system => exact absurd hm (h m (List.mem_cons_self m rest))

/-- **C8 (amended)**: for every window size `K ≥ 1`, `build_chat_history`
returns the last `min(len, 2K)` messages in chronological order, tagged by
role, with system-role messages excluded; when no system messages are
present the returned history has exactly `min(len, 2K)` turns.  (For
`K = 0` the Python slice `messages[-0:]` returns the whole list instead.) -/
theorem chat_history_window (messages : List ChatMsg) (K : Nat) (hK : 1 ≤ K) :
    build_chat_history messages K =
      (messages.drop (messages.length - min (K * 2) messages.length)).filterMap
        historyMsg? ∧
    ((∀ m ∈ messages, m.role ≠ .system) →
      (build_chat_history messages K).length = min (K * 2) messages.length) := by
  have hmain : build_chat_history messages K =
      (messages.drop (messages.length - min (K * 2) messages.length)).filterMap
        historyMsg? := by
    unfold build_chat_history
    dsimp only
    by_cases h : K * 2 < messages.length
    · have hne : ¬(K * 2 = 0) := by omega
      rw [if_pos h, if_neg hne, Nat.min_eq_left (le_of_lt h)]
    · rw [if_neg h]
      rw [Nat.min_eq_right (le_of_not_lt h)]
      simp
  refine ⟨hmain, ?_⟩
  intro hns
  rw [hmain]
  have hsub : ∀ m ∈ messages.drop (messages.length - min (K * 2) messages.length),
      m.role ≠ .system := fun m hm => hns m (List.drop_subset _ messages hm)
  rw [length_filterMap_of_no_system hsub, List.length_drop]
  omega

/-- Witness for C8 (amended), the spec's P6 scenario: 10 alternating
user/assistant turns and `K = 2` yield exactly the last 4 turns in order. -/
theorem chat_history_window_witness :
    (build_chat_history altMessages 2 =
      (altMessages.drop (altMessages.length - min (2 * 2) altMessages.length)).filterMap
        historyMsg? ∧
    ((∀ m ∈ altMessages, m.role ≠ .system) →
      (build_chat_history altMessages 2).length = min (2 * 2) altMessages.length)) ∧
    build_chat_history altMessages 2 =
      [.human "u4", .ai "a4", .human "u5", .ai "a5"] :=
  ⟨chat_history_window altMessages 2 (by decide), by decide⟩

/-- Counterexample to C8 as stated: with `K = 0` and one user message, the
code returns that message (Python's `messages[-0:]` is the whole list)
although the claim calls for the last `min(1, 0) = 0` turns. -/
theorem chat_history_K0_counterexample :
    build_chat_history [⟨.user, "hi"⟩] 0 = [.human "hi"] ∧
    (build_chat_history [⟨.user, "hi"⟩] 0).length ≠ min (0 * 2) 1 := by
  decide

/-! ## Rate limiter -/

lemma cleanupOld_sublist (now : ℚ) (q : List ℚ) : (cleanupOld now q).Sublist q :=
  List.dropWhile_sublist _

lemma mem_cleanupOld {now : ℚ} :
    ∀ {q : List ℚ}, q.Pairwise (· < ·) → ∀ {t : ℚ}, t ∈ q → now - 60 ≤ t →
      t ∈ cleanupOld now q := by
  intro q
  induction q with
  | nil => intro _ t ht _; simp at ht
  | cons b l ih =>
    intro hq t ht hc
    rw [cleanupOld, List.dropWhile_cons]
    by_cases h : b < now - 60
    · rw [if_pos (by simpa using h)]
      rcases List.mem_cons.mp ht with rfl | htl
      · exact absurd h (not_lt.mpr hc)
      · exact ih (List.pairwise_cons.mp hq).2 htl hc
    · rw [if_neg (by simpa using h)]
      exact ht

lemma cleanupOld_lower {now : ℚ} :
    ∀ {q : List ℚ}, q.Pairwise (· < ·) → ∀ t ∈ cleanupOld now q, now - 60 ≤ t := by
  intro q
  induction q with
  | nil => intro _ t ht; simp [cleanupOld] at ht
  | cons b l ih =>
    intro hq t ht
    rw [cleanupOld, List.dropWhile_cons] at ht
    by_cases h : b < now - 60
    · rw [if_pos (by simpa using h)] at ht
      exact ih (List.pairwise_cons.mp hq).2 t ht
    · rw [if_neg (by simpa using h)] at ht
      rcases List.mem_cons.mp ht with rfl | htl
      · exact not_lt.mp h
      · exact le_trans (not_lt.mp h) (le_of_lt ((List.pairwise_cons.mp hq).1 t htl))

lemma length_filter_lt {tr l : List ℚ} {R : Nat} (hsort : tr.Pairwise (· < ·))
    (p : ℚ → Bool) (hsubset : ∀ t ∈ tr, p t = true → t ∈ l)
    (hlen : l.length < R) : (tr.filter p).length < R := by
  have hsub : ∀ t ∈ tr.filter p, t ∈ l := fun t ht =>
    hsubset t (List.mem_of_mem_filter ht) (List.of_mem_filter ht)
  have hnd : (tr.filter p).Nodup :=
    List.Nodup.filter _ (List.Pairwise.imp ne_of_lt hsort)
  exact lt_of_le_of_lt (List.subperm_of_subset hnd hsub).length_le hlen

/-- Appending a freshly recorded timestamp `f` preserves the run invariant,
given that every 60-second window ending at or after `f` already holds
fewer than `R` old timestamps. -/
lemma invariant_extend {R : Nat} {tr q1 q2 : List ℚ} {lastF a f : ℚ}
    (ha : lastF < a) (haf : a ≤ f)
    (hsort : tr.Pairwise (· < ·))
    (hle : ∀ t ∈ tr, t ≤ lastF)
    (hq1tr : q1.Sublist tr)
    (hq2sub : q2.Sublist q1)
    (hq2mem : ∀ t ∈ q1, f - 60 ≤ t → t ∈ q2)
    (hF3 : ∀ t ∈ tr, a - 60 ≤ t → t ∈ q1)
    (hw : windowOK R tr)
    (hcount : ∀ x : ℚ, f - 60 ≤ x → x < f →
      (tr.filter (fun t => decide (x < t ∧ t ≤ x + 60))).length < R) :
    (tr ++ [f]).Pairwise (· < ·) ∧ (∀ t ∈ tr ++ [f], t ≤ f) ∧
    (q2 ++ [f]).Sublist (tr ++ [f]) ∧
    (∀ t ∈ tr ++ [f], t ∈ q2 ++ [f] ∨ t < f - 60) ∧
    windowOK R (tr ++ [f]) := by
  have hlf : lastF < f := lt_of_lt_of_le ha haf
  refine ⟨?_, ?_, ?_, ?_, ?_⟩
  · rw [List.pairwise_append]
    refine ⟨hsort, List.pairwise_singleton _ _, ?_⟩
    intro t ht b hb
    rw [List.mem_singleton] at hb
    subst hb
    exact lt_of_le_of_lt (hle t ht) hlf
  · intro t ht
    rcases List.mem_append.mp ht with h1 | h1
    · exact le_trans (hle t h1) (le_of_lt hlf)
    · rw [List.mem_singleton] at h1
      subst h1
      exact le_rfl
  · exact List.Sublist.append (hq2sub.trans hq1tr) (List.Sublist.refl [f])
  · intro t ht
    rcases List.mem_append.mp ht with h1 | h1
    · by_cases hge : f - 60 ≤ t
      · have hage : a - 60 ≤ t := le_trans (by linarith) hge
        exact Or.inl (List.mem_append_left _ (hq2mem t (hF3 t h1 hage) hge))
      · exact Or.inr (lt_of_not_le hge)
    · rw [List.mem_singleton] at h1
      subst h1
      exact Or.inl (List.mem_append_right _ (List.mem_singleton.mpr rfl))
  · intro x
    rw [List.filter_append, List.length_append]
    by_cases hx : x < f ∧ f ≤ x + 60
    · have h1 : [f].filter (fun t => decide (x < t ∧ t ≤ x + 60)) = [f] := by
        simp [hx.1, hx.2]
      rw [h1]
      have h2 : f - 60 ≤ x := by linarith [hx.2]
      have h3 := hcount x h2 hx.1
      simp only [List.length_singleton]
      omega
    · have h1 : [f].filter (fun t => decide (x < t ∧ t ≤ x + 60)) = [] := by
        simp [hx]
      rw [h1]
      simpa using hw x

/-- One acquire preserves the run invariant. -/
lemma waitSyncStep_preserves {R : Nat} (hR : 1 ≤ R) {tr q : List ℚ} {lastF a : ℚ}
    (ha : lastF < a)
    (hsort : tr.Pairwise (· < ·)) (hle : ∀ t ∈ tr, t ≤ lastF)
    (hsub : q.Sublist tr) (hmem : ∀ t ∈ tr, t ∈ q ∨ t < lastF - 60)
    (hw : windowOK R tr) :
    lastF < (waitSyncStep R a q).1 ∧
    (tr ++ [(waitSyncStep R a q).1]).Pairwise (· < ·) ∧
    (∀ t ∈ tr ++ [(waitSyncStep R a q).1], t ≤ (waitSyncStep R a q).1) ∧
    (waitSyncStep R a q).2.Sublist (tr ++ [(waitSyncStep R a q).1]) ∧
    (∀ t ∈ tr ++ [(waitSyncStep R a q).1],
      t ∈ (waitSyncStep R a q).2 ∨ t < (waitSyncStep R a q).1 - 60) ∧
    windowOK R (tr ++ [(waitSyncStep R a q).1]) := by
  have hqsort : q.Pairwise (· < ·) := List.Pairwise.sublist hsub hsort
  have hq1q : (cleanupOld a q).Sublist q := cleanupOld_sublist a q
  have hq1tr : (cleanupOld a q).Sublist tr := hq1q.trans hsub
  have hq1sort : (cleanupOld a q).Pairwise (· < ·) := List.Pairwise.sublist hq1q hqsort
  have hF2 : ∀ t ∈ cleanupOld a q, a - 60 ≤ t := cleanupOld_lower hqsort
  have hF3 : ∀ t ∈ tr, a - 60 ≤ t → t ∈ cleanupOld a q := by
    intro t htr hge
    rcases hmem t htr with htq | hlt
    · exact mem_cleanupOld hqsort htq hge
    · exact absurd hge (by linarith)
  by_cases hunder : (cleanupOld a q).length < R
  · have hstep : waitSyncStep R a q = (a, cleanupOld a q ++ [a]) := by
      rw [waitSyncStep]
      rw [if_pos hunder]
      norm_num
    rw [hstep]
    refine And.intro ha (invariant_extend ha (le_refl a) hsort hle hq1tr
      (List.Sublist.refl _) (fun t ht _ => ht) hF3 hw ?_)
    intro x hx1 hx2
    refine length_filter_lt hsort _ ?_ hunder
    intro t htr hpt
    rw [decide_eq_true_eq] at hpt
    exact hF3 t htr (by linarith [hpt.1])
  · obtain ⟨h0, q1t, hq1eq⟩ : ∃ h0 q1t, cleanupOld a q = h0 :: q1t := by
      cases hc : cleanupOld a q with
      | nil =>
        exfalso
        rw [hc] at hunder
        simp at hunder
        omega
      | cons x xs => exact ⟨x, xs, rfl⟩
    have hh0q1 : h0 ∈ cleanupOld a q := by
      rw [hq1eq]
      exact List.mem_cons_self h0 q1t
    have hh0le : h0 ≤ lastF := hle h0 (hq1tr.subset hh0q1)
    have hh0ge : a - 60 ≤ h0 := hF2 h0 hh0q1
    have hheadD : (cleanupOld a q).headD 0 = h0 := by rw [hq1eq]; rfl
    have hF4 : (cleanupOld a q).length ≤ R := by
      have hfil : (cleanupOld a q).filter
          (fun t => decide ((lastF - 60) < t ∧ t ≤ (lastF - 60) + 60)) =
          cleanupOld a q := by
        rw [List.filter_eq_self]
        intro t ht
        have h1 := hF2 t ht
        have h2 := hle t (hq1tr.subset ht)
        simp only [decide_eq_true_eq]
        constructor <;> linarith
      have h5 := (hq1tr.filter
        (fun t => decide ((lastF - 60) < t ∧ t ≤ (lastF - 60) + 60))).length_le
      rw [hfil] at h5
      exact le_trans h5 (hw (lastF - 60))
    have htail_lt : q1t.length < R := by
      have hlen1 : (cleanupOld a q).length = q1t.length + 1 := by rw [hq1eq]; rfl
      omega
    have hcount_over : ∀ f' : ℚ, h0 ≤ f' - 60 →
        ∀ x : ℚ, f' - 60 ≤ x → x < f' →
        (tr.filter (fun t => decide (x < t ∧ t ≤ x + 60))).length < R := by
      intro f' hf' x hx1 hx2
      refine length_filter_lt hsort _ ?_ htail_lt
      intro t htr hpt
      rw [decide_eq_true_eq] at hpt
      have hta : a - 60 ≤ t := by linarith [hpt.1]
      have htq1 : t ∈ cleanupOld a q := hF3 t htr hta
      rw [hq1eq] at htq1
      rcases List.mem_cons.mp htq1 with rfl | htt
      · exfalso
        linarith [hpt.1]
      · exact htt
    by_cases hwpos : 0 < max 0 (h0 + 60 - a)
    · have hvpos : 0 < h0 + 60 - a := by
        rcases lt_max_iff.mp hwpos with hcon | hv
        · exact absurd hcon (lt_irrefl 0)
        · exact hv
      have hmaxv : max 0 (h0 + 60 - a) = h0 + 60 - a := max_eq_right (le_of_lt hvpos)
      have hfval : a + max 0 (h0 + 60 - a) = h0 + 60 := by
        rw [hmaxv]
        ring
      have haf : a ≤ h0 + 60 := by linarith
      have hstep : waitSyncStep R a q =
          (h0 + 60, cleanupOld (h0 + 60) (cleanupOld a q) ++ [h0 + 60]) := by
        rw [waitSyncStep]
        rw [if_neg hunder, hheadD, if_pos hwpos, hfval]
      rw [hstep]
      refine And.intro (lt_of_lt_of_le (lt_of_lt_of_le ha haf) (le_refl _))
        (invariant_extend ha haf hsort hle hq1tr
          (cleanupOld_sublist _ _)
          (fun t ht hge => mem_cleanupOld hq1sort ht hge)
          hF3 hw ?_)
      exact hcount_over (h0 + 60) (by linarith)
    · have hstep : waitSyncStep R a q = (a, cleanupOld a q ++ [a]) := by
        rw [waitSyncStep]
        rw [if_neg hunder, hheadD, if_neg hwpos]
      rw [hstep]
      have hmax0 : h0 + 60 - a ≤ 0 := by
        by_contra hcon
        push_neg at hcon
        exact hwpos (lt_max_of_lt_right hcon)
      refine And.intro ha (invariant_extend ha (le_refl a) hsort hle hq1tr
        (List.Sublist.refl _) (fun t ht _ => ht) hF3 hw ?_)
      exact hcount_over a (by linarith)

/-- Running a whole back-to-back sequence preserves the invariant and
records exactly one timestamp per acquire. -/
lemma runAcquires_invariant {R : Nat} (hR : 1 ≤ R) :
    ∀ (gaps : List ℚ), (∀ g ∈ gaps, 0 < g) →
    ∀ (tr q : List ℚ) (lastF : ℚ),
      tr.Pairwise (· < ·) → (∀ t ∈ tr, t ≤ lastF) → q.Sublist tr →
      (∀ t ∈ tr, t ∈ q ∨ t < lastF - 60) → windowOK R tr →
      windowOK R (tr ++ runAcquires R gaps q lastF) ∧
      (runAcquires R gaps q lastF).length = gaps.length := by
  intro gaps
  induction gaps with
  | nil =>
    intro _ tr q lastF _ _ _ _ hw
    refine ⟨?_, rfl⟩
    simpa [runAcquires] using hw
  | cons g gs ih =>
    intro hg tr q lastF hsort hle hsub hmem hw
    have hga : 0 < g := hg g (List.mem_cons_self g gs)
    have ha : lastF < lastF + g := by linarith
    obtain ⟨-, hsort', hle', hsub', hmem', hw'⟩ :=
      waitSyncStep_preserves hR ha hsort hle hsub hmem hw
    have hrest := ih (fun x hx => hg x (List.mem_cons_of_mem g hx))
      (tr ++ [(waitSyncStep R (lastF + g) q).1]) (waitSyncStep R (lastF + g) q).2
      (waitSyncStep R (lastF + g) q).1 hsort' hle' hsub' hmem' hw'
    rw [runAcquires]
    constructor
    · have heq : tr ++ ((waitSyncStep R (lastF + g) q).1 ::
          runAcquires R gs (waitSyncStep R (lastF + g) q).2
            (waitSyncStep R (lastF + g) q).1) =
          (tr ++ [(waitSyncStep R (lastF + g) q).1]) ++
          runAcquires R gs (waitSyncStep R (lastF + g) q).2
            (waitSyncStep R (lastF + g) q).1 := by
        simp
      rw [heq]
      exact hrest.1
    · simp [hrest.2]

/-- **C4 (amended)**: for limit `R ≥ 1` and back-to-back acquires in which
each call arrives strictly after the previous one completed, no 60-second
sliding window ever contains more than `R` recorded timestamps (the count
of timestamps newer than `now - 60` never exceeds `R`), and every acquire
records exactly one timestamp — enforcement waits, it never drops or
raises.  (If a call arrives at the exact instant the oldest timestamp
leaves the window, the strict `<` in the cleanup lets extra requests
through; see the counterexample.) -/
theorem rate_limiter_sliding_window (R : Nat) (gaps : List ℚ) (hR : 1 ≤ R)
    (hg : ∀ g ∈ gaps, 0 < g) :
    windowOK R (limiterTrace R gaps) ∧
    (limiterTrace R gaps).length = gaps.length := by
  have h := runAcquires_invariant hR gaps hg [] [] 0 (by simp) (by simp)
    (List.Sublist.refl []) (by simp) (by intro x; simp)
  simpa [limiterTrace] using h

/-- Witness for C4 (amended): limit 1, two acquires one second apart. -/
theorem rate_limiter_sliding_window_witness :
    windowOK 1 (limiterTrace 1 [1, 1]) ∧ (limiterTrace 1 [1, 1]).length = 2 :=
  rate_limiter_sliding_window 1 [1, 1] (by decide)
    (by
      intro g hgm
      simp at hgm
      subst hgm
      norm_num)

/-- Counterexample to C4 as stated: three acquires with zero gaps under
limit 1 record `[0, 60, 60]` — at time 60 two timestamps are newer than
`60 - 60 = 0`, so the sliding window holds 2 > 1 entries. -/
theorem rate_limiter_boundary_counterexample :
    limiterTrace 1 [0, 0, 0] = [0, 60, 60] ∧
    ¬ windowOK 1 (limiterTrace 1 [0, 0, 0]) := by
  have htr : limiterTrace 1 [0, 0, 0] = [0, 60, 60] := by
    norm_num [limiterTrace, runAcquires, waitSyncStep, cleanupOld,
      List.dropWhile, List.headD]
  refine ⟨htr, ?_⟩
  intro hcon
  have h2 := hcon 0
  rw [htr] at h2
  norm_num [List.filter] at h2

end VaultAI
